import Mathlib

/-!
Shallow embedding of the vmodule verbosity-filter component of the klog v1
shim (src/klog.go).  Go strings are modelled as `List Char`; the unexported
global state (`vModuleFilter`, `vModuleCache`) is passed explicitly; the
program counter of a call site is a `Nat` and the runtime's pc → source-file
mapping (`runtime.FuncForPC` + `FileLine`) is an explicit environment
`fileOf : Nat → List Char`.  The wrapped inner `flag.Value` is abstracted as
a function `innerSet : List Char → Option (List Char)` returning `some err`
on failure, `none` on success.
-/

namespace Klog

/-- Go `strings.Split(s, sep)` for a one-character separator: splits around
each occurrence of `sep`; the result is never empty (`Split "" = [""]`). -/
def splitOn (sep : Char) : List Char → List (List Char)
  | [] => [[]]
  | c :: rest =>
    if c = sep then [] :: splitOn sep rest
    else
      match splitOn sep rest with
      | [] => [[c]]
      | h :: t => (c :: h) :: t

/-- Result of Go `strconv.ParseUint(s, 10, 32)`: `bad` is a syntax error
(Go returns value 0), `over` is `ErrRange` (Go returns the max value
`2^32 - 1`), `val n` is success. -/
inductive UintRes where
  | bad : UintRes
  | over : UintRes
  | val : Nat → UintRes
deriving DecidableEq

/-- The digit-accumulation loop of `strconv.ParseUint(s, 10, 32)`.  Go
returns `ErrRange` as soon as the accumulated value would exceed
`2^32 - 1`, without looking at the remaining characters; a non-digit
character reached before that point is a syntax error. -/
def parseUintLoop : List Char → Nat → UintRes
  | [], n => .val n
  | c :: rest, n =>
    if '0' ≤ c ∧ c ≤ '9' then
      let n1 := n * 10 + (c.toNat - '0'.toNat)
      if n1 > 2 ^ 32 - 1 then .over else parseUintLoop rest n1
    else .bad

/-- Go `strconv.ParseUint(s, 10, 32)` (empty input is a syntax error). -/
def parseUintGo (s : List Char) : UintRes :=
  match s with
  | [] => .bad
  | _ => parseUintLoop s 0

/-- Go `strconv.ParseInt(s, 10, 32)` with the error discarded, as in
`v, _ := strconv.ParseInt(patLev[1], 10, 32)`: syntax errors yield 0;
values outside the int32 range are clamped to `2^31 - 1` / `-2^31`. -/
def parseInt10_32 (s : List Char) : Int :=
  match s with
  | [] => 0
  | c0 :: rest =>
    let neg : Bool := c0 = '-'
    let digits := if c0 = '+' ∨ c0 = '-' then rest else c0 :: rest
    match parseUintGo digits with
    | .bad => 0
    | .over => if neg then -(2 ^ 31) else 2 ^ 31 - 1
    | .val un =>
      if neg = false ∧ 2 ^ 31 ≤ un then (2 ^ 31 - 1 : Int)
      else if neg = true ∧ 2 ^ 31 < un then -(2 ^ 31)
      else if neg then -(un : Int) else (un : Int)

/-- `isLiteral` (src/klog.go:159): the pattern has none of the
metacharacters `\`, `*`, `?`, `[`, `]`. -/
def isLiteral (pattern : List Char) : Bool :=
  !(pattern.any fun c => c = '\\' ∨ c = '*' ∨ c = '?' ∨ c = '[' ∨ c = ']')

/-- `modulePat` (src/klog.go:106): one parsed `-vmodule` clause. -/
structure modulePat where
  pattern : List Char
  literal : Bool
  level : Int
deriving DecidableEq

/-! Embedding of Go `path/filepath.Match` on a non-Windows platform
(`Separator = '/'`).  Matching works on `List Char`; the recursions of
`matchClass`, `matchChunk` and `goMatch`/`tryStar` are not structural, so
each carries a fuel argument that provably exceeds its recursion depth
(every step consumes at least one character); the fuel-exhausted branches
are unreachable for the fuel supplied by `filepathMatch`. -/

/-- `getEsc` of `path/filepath/match.go`: one possibly-escaped character of
a character class; `none` is `ErrBadPattern`. -/
def getEsc : List Char → Option (Char × List Char)
  | [] => none
  | c :: rest =>
    if c = '-' ∨ c = ']' then none
    else if c = '\\' then
      match rest with
      | [] => none
      | r :: nchunk => if nchunk = [] then none else some (r, nchunk)
    else if rest = [] then none else some (c, rest)

/-- The range-parsing loop of the `[` case of `matchChunk`: `r` is the rune
taken from the name (`'\x00'` when the match has already failed), `m` the
"some range matched" accumulator, `nrange` the number of ranges seen.
Returns `none` on `ErrBadPattern`, otherwise the accumulator and the chunk
remaining after the closing `]`. -/
def matchClass (r : Char) : Nat → List Char → Bool → Nat → Option (Bool × List Char)
  | 0, _, _, _ => none
  | fuel + 1, chunk, m, nrange =>
    match chunk with
    | ']' :: rest =>
      if 0 < nrange then some (m, rest)
      else none
    | _ =>
      match getEsc chunk with
      | none => none
      | some (lo, chunk1) =>
        match chunk1 with
        | '-' :: chunk2 =>
          match getEsc chunk2 with
          | none => none
          | some (hi, chunk3) =>
            matchClass r fuel chunk3 (m || (lo ≤ r ∧ r ≤ hi)) (nrange + 1)
        | _ =>
          matchClass r fuel chunk1 (m || (lo ≤ r ∧ r ≤ lo)) (nrange + 1)

/-- Result of `matchChunk`: `err` is `ErrBadPattern`, `res rest ok` the
remainder of the name and whether the chunk matched its front. -/
inductive ChunkRes where
  | err : ChunkRes
  | res : List Char → Bool → ChunkRes
deriving DecidableEq

/-- `matchChunk` of `path/filepath/match.go` (non-Windows): checks whether
`chunk` matches the beginning of `s`; `failed` records an already-failed
match while the rest of the chunk is still scanned for syntax errors. -/
def matchChunk : Nat → List Char → List Char → Bool → ChunkRes
  | 0, _, _, _ => .err
  | fuel + 1, chunk, s, failed =>
    match chunk with
    | [] => if failed then .res [] false else .res s true
    | c :: chunkRest =>
      let failed1 := failed || s.isEmpty
      if c = '[' then
        let rs : Char × List Char :=
          match failed1, s with
          | false, ch :: srest => (ch, srest)
          | _, _ => (Char.ofNat 0, s)
        let ng : Bool × List Char :=
          match chunkRest with
          | '^' :: t => (true, t)
          | _ => (false, chunkRest)
        match matchClass rs.1 (chunkRest.length + 1) ng.2 false 0 with
        | none => .err
        | some (m, chunk2) => matchChunk fuel chunk2 rs.2 (failed1 || (m == ng.1))
      else if c = '?' then
        match failed1, s with
        | false, ch :: srest => matchChunk fuel chunkRest srest (ch = '/')
        | _, _ => matchChunk fuel chunkRest s true
      else if c = '\\' then
        match chunkRest with
        | [] => .err
        | e :: chunkRest2 =>
          match failed1, s with
          | false, ch :: srest => matchChunk fuel chunkRest2 srest (decide ¬e = ch)
          | _, _ => matchChunk fuel chunkRest2 s true
      else
        match failed1, s with
        | false, ch :: srest => matchChunk fuel chunkRest srest (decide ¬c = ch)
        | _, _ => matchChunk fuel chunkRest s true

/-- Leading-star stripping of `scanChunk`: reports whether any `*` was
removed and the pattern after the stars. -/
def stripStars : List Char → Bool × List Char
  | '*' :: rest => (true, (stripStars rest).2)
  | p => (false, p)

/-- The scan loop of `scanChunk`: cuts the pattern at the next top-level
(`[...]`-aware) `*`, keeping an escaped character with its backslash. -/
def scanBody : Bool → List Char → List Char × List Char
  | _, [] => ([], [])
  | inrange, c :: rest =>
    if c = '\\' then
      match rest with
      | [] => ([c], [])
      | d :: rest2 =>
        let cr := scanBody inrange rest2
        (c :: d :: cr.1, cr.2)
    else if c = '[' then
      let cr := scanBody true rest
      (c :: cr.1, cr.2)
    else if c = ']' then
      let cr := scanBody false rest
      (c :: cr.1, cr.2)
    else if c = '*' then
      if inrange then
        let cr := scanBody inrange rest
        (c :: cr.1, cr.2)
      else ([], c :: rest)
    else
      let cr := scanBody inrange rest
      (c :: cr.1, cr.2)

/-- `scanChunk` of `path/filepath/match.go`: a possibly-star-preceded
non-star segment of the pattern plus the remaining pattern. -/
def scanChunk (pattern : List Char) : Bool × List Char × List Char :=
  let sp := stripStars pattern
  let cr := scanBody false sp.2
  (sp.1, cr.1, cr.2)

mutual

/-- The `Pattern:` loop of `filepath.Match`. -/
def goMatch : Nat → List Char → List Char → Bool
  | 0, _, _ => false
  | fuel + 1, pattern, name =>
    match pattern with
    | [] => name.isEmpty
    | _ =>
      let scr := scanChunk pattern
      let star := scr.1
      let chunk := scr.2.1
      let rest := scr.2.2
      if star ∧ chunk = [] then
        !(name.contains '/')
      else
        match matchChunk (chunk.length + 1) chunk name false with
        | .err => false
        | .res t ok =>
          if ok ∧ (t = [] ∨ rest ≠ []) then goMatch fuel rest t
          else if star then tryStar fuel chunk rest name
          else false

/-- The inner `for i` loop of the `star` case of `filepath.Match`: try to
match `chunk` after skipping one more character of the name (never past a
`/`). -/
def tryStar : Nat → List Char → List Char → List Char → Bool
  | 0, _, _, _ => false
  | fuel + 1, chunk, rest, name =>
    match name with
    | [] => false
    | c :: nameRest =>
      if c = '/' then false
      else
        match matchChunk (chunk.length + 1) chunk nameRest false with
        | .err => false
        | .res t ok =>
          if ok then
            if rest = [] ∧ t ≠ [] then tryStar fuel chunk rest nameRest
            else goMatch fuel rest t
          else tryStar fuel chunk rest nameRest

end

/-- Go `filepath.Match(pattern, name)` with the error discarded, as in
`match, _ := filepath.Match(m.pattern, file)`: an `ErrBadPattern` counts
as no match.  The fuel bounds the number of loop iterations, each of which
consumes a character of the pattern or of the name. -/
def filepathMatch (pattern name : List Char) : Bool :=
  goMatch ((pattern.length + 1) * (name.length + 2)) pattern name

/-- `modulePat.match` (src/klog.go:114): string equality for a literal
pattern, otherwise `filepath.Match` with the error discarded. -/
def modulePat.matchFile (m : modulePat) (file : List Char) : Bool :=
  if m.literal then file == m.pattern
  else filepathMatch m.pattern file

/-- The unexported `global` state (src/klog.go:98): the filter from arg
parsing and the pc → Level cache.  The cache map is an association list
queried by first match; `vmoduleGet` inserts a key only on a miss. -/
structure GlobalState where
  vModuleFilter : List modulePat
  vModuleCache : List (Nat × Int)
deriving DecidableEq

/-- The parsing loop of `vmoduleValue.Set` (src/klog.go:136-149) over the
comma-split segments.  `none` models the `patLev[1]` index-out-of-range
panic that occurs when a non-empty segment contains no `=`. -/
def parseSegs : List (List Char) → Option (List modulePat)
  | [] => some []
  | pat :: rest =>
    if pat = [] then parseSegs rest
    else
      let patLev := splitOn '=' pat
      match patLev[1]? with
      | none => none
      | some levText =>
        let pattern := patLev.headD []
        let v := parseInt10_32 levText
        if v = 0 then parseSegs rest
        else (parseSegs rest).map fun f => modulePat.mk pattern (isLiteral pattern) v :: f

/-- The whole filter computation of `vmoduleValue.Set`: split on `,`,
skip empty segments, parse each `pattern=level` clause, drop level-0
rules; `none` models the index panic on a segment with no `=`. -/
def parseFilter (value : List Char) : Option (List modulePat) :=
  parseSegs (splitOn ',' value)

/-- Outcome of `vmoduleValue.Set`: the inner flag value's error (with the
unchanged state), the index-out-of-range panic, or the new state. -/
inductive SetOutcome where
  | err : List Char → GlobalState → SetOutcome
  | oob : SetOutcome
  | ok : GlobalState → SetOutcome
deriving DecidableEq

/-- `vmoduleValue.Set` (src/klog.go:131-155): forward to the wrapped inner
flag value first and return its error unchanged; otherwise parse the
filter and, under the lock, replace `vModuleFilter` and clear
`vModuleCache` together. -/
def vmoduleSet (innerSet : List Char → Option (List Char)) (value : List Char)
    (st : GlobalState) : SetOutcome :=
  match innerSet value with
  | some e => .err e st
  | none =>
    match parseFilter value with
    | none => .oob
    | some filter => .ok (GlobalState.mk filter [])

/-- The suffix strip of `vmoduleGet` (src/klog.go:251-253): remove a
trailing `.go`. -/
def stripGoSuffix (file : List Char) : List Char :=
  if ['.', 'g', 'o'].isSuffixOf file then file.take (file.length - 3) else file

/-- The directory strip of `vmoduleGet` (src/klog.go:254-256): keep only
what follows the last `/`, if any. -/
def afterLastSlash : List Char → List Char
  | [] => []
  | c :: rest =>
    if c = '/' ∨ rest.contains '/' then afterLastSlash rest else c :: rest

/-- The file-name resolution of `vmoduleGet`: `/a/b/c/d.go` becomes `d`. -/
def vmoduleFileName (file : List Char) : List Char :=
  afterLastSlash (stripGoSuffix file)

/-- The filter loop of `vmoduleGet` (src/klog.go:257-262): level of the
first matching rule, in declaration order. -/
def firstMatch : List modulePat → List Char → Option Int
  | [], _ => none
  | f :: rest, file =>
    if f.matchFile file then some f.level else firstMatch rest file

/-- The level the filter assigns to a resolved file name: first matching
rule's level, 0 when no rule matches. -/
def levelFor (filter : List modulePat) (file : List Char) : Int :=
  (firstMatch filter file).getD 0

/-- `vmoduleGet` (src/klog.go:241-265): under the lock, answer from the
cache when possible; otherwise resolve the pc's file name, scan the filter
for the first match, cache the result (0 when nothing matches) and return
it.  `fileOf` stands for `runtime.FuncForPC(pc).FileLine(pc)`. -/
def vmoduleGet (fileOf : Nat → List Char) (pc : Nat) (st : GlobalState) :
    Int × GlobalState :=
  match st.vModuleCache.lookup pc with
  | some v => (v, st)
  | none =>
    let file := vmoduleFileName (fileOf pc)
    match firstMatch st.vModuleFilter file with
    | some lv => (lv, GlobalState.mk st.vModuleFilter ((pc, lv) :: st.vModuleCache))
    | none => (0, GlobalState.mk st.vModuleFilter ((pc, 0) :: st.vModuleCache))

/-- `V` (src/klog.go:224-236): true when the global `-v` check
(`klogv2.V(level).Enabled()`, abstracted as `globalV`) passes; otherwise
false when no caller pc is available, else compare the vmodule level of
the call site with the requested level. -/
def V (globalV : Bool) (fileOf : Nat → List Char) (level : Int)
    (pc : Option Nat) (st : GlobalState) : Bool × GlobalState :=
  if globalV then (true, st)
  else
    match pc with
    | none => (false, st)
    | some p =>
      let vst := vmoduleGet fileOf p st
      (decide (level ≤ vst.1), vst.2)

/-- The level text `s` makes `strconv.ParseInt(s, 10, 32)` fail with a
syntax error (empty text, a bare sign, or a non-digit reached before the
accumulated value leaves the 32-bit range), in which case Go returns the
value 0. -/
def levelSynErr (s : List Char) : Bool :=
  match s with
  | [] => true
  | c0 :: rest =>
    decide (parseUintGo (if c0 = '+' ∨ c0 = '-' then rest else c0 :: rest) = .bad)

/-- States of the vmodule component reachable from the initial empty state
by any interleaving of `V`/`vmoduleGet` queries and successful
`vmoduleValue.Set` updates (a failed `Set` leaves the state unchanged, so
only `ok` outcomes introduce new states). -/
inductive Reachable (fileOf : Nat → List Char) : GlobalState → Prop where
  | init : Reachable fileOf (GlobalState.mk [] [])
  | get (pc : Nat) {st : GlobalState} :
      Reachable fileOf st → Reachable fileOf (vmoduleGet fileOf pc st).2
  | set {innerSet : List Char → Option (List Char)} {value : List Char}
      {st st' : GlobalState} : Reachable fileOf st →
      vmoduleSet innerSet value st = SetOutcome.ok st' → Reachable fileOf st'

/-- Every cache entry maps its pc to exactly the level the current filter
assigns to that pc's resolved file name (0 when no rule matches). -/
def cacheConsistent (fileOf : Nat → List Char) (st : GlobalState) : Prop :=
  ∀ pc lv, st.vModuleCache.lookup pc = some lv →
    lv = levelFor st.vModuleFilter (vmoduleFileName (fileOf pc))

/-! ### Helper lemmas -/

lemma splitOn_not_mem (sep : Char) (l : List Char) (h : sep ∉ l) :
    splitOn sep l = [l] := by
  induction l with
  | nil => rfl
  | cons c rest ih =>
    have hc : ¬ c = sep := by
      intro e
      exact h (e ▸ List.mem_cons_self c rest)
    have hr : sep ∉ rest := fun m => h (List.mem_cons_of_mem _ m)
    simp [splitOn, hc, ih hr]

lemma splitOn_append (sep : Char) (a b : List Char) (h : sep ∉ a) :
    splitOn sep (a ++ sep :: b) = a :: splitOn sep b := by
  induction a with
  | nil => simp [splitOn]
  | cons c rest ih =>
    have hc : ¬ c = sep := by
      intro e
      exact h (e ▸ List.mem_cons_self c rest)
    have hr : sep ∉ rest := fun m => h (List.mem_cons_of_mem _ m)
    simp [splitOn, hc, ih hr]

lemma parseInt_of_synErr (s : List Char) (h : levelSynErr s = true) :
    parseInt10_32 s = 0 := by
  cases s with
  | nil => rfl
  | cons c0 rest =>
    have hb : parseUintGo (if c0 = '+' ∨ c0 = '-' then rest else c0 :: rest)
        = .bad := by
      simpa [levelSynErr] using h
    simp [parseInt10_32, hb]

lemma comma_not_mem_seg {p t : List Char} (hp : ',' ∉ p) (ht : ',' ∉ t) :
    ',' ∉ p ++ '=' :: t := by
  intro hm
  rcases List.mem_append.1 hm with h | h
  · exact hp h
  · rcases List.mem_cons.1 h with h | h
    · exact absurd h (by decide)
    · exact ht h

lemma parseFilter_single (p t : List Char) (hpe : '=' ∉ p) (hpc : ',' ∉ p)
    (htc : ',' ∉ t) (hte : '=' ∉ t) :
    parseFilter (p ++ '=' :: t) =
      some (if parseInt10_32 t = 0 then []
            else [modulePat.mk p (isLiteral p) (parseInt10_32 t)]) := by
  have hsplit : splitOn '=' (p ++ '=' :: t) = [p, t] := by
    rw [splitOn_append _ _ _ hpe, splitOn_not_mem _ _ hte]
  have hne : ¬ (p ++ '=' :: t = []) := by simp
  unfold parseFilter
  rw [splitOn_not_mem _ _ (comma_not_mem_seg hpc htc)]
  by_cases hv : parseInt10_32 t = 0 <;>
    simp [parseSegs, hne, hsplit, hv]

lemma parseFilter_pair (p1 t1 p2 t2 : List Char)
    (hp1e : '=' ∉ p1) (hp1c : ',' ∉ p1) (ht1c : ',' ∉ t1) (ht1e : '=' ∉ t1)
    (hp2e : '=' ∉ p2) (hp2c : ',' ∉ p2) (ht2c : ',' ∉ t2) (ht2e : '=' ∉ t2)
    (h1 : parseInt10_32 t1 ≠ 0) (h2 : parseInt10_32 t2 ≠ 0) :
    parseFilter ((p1 ++ '=' :: t1) ++ ',' :: (p2 ++ '=' :: t2)) =
      some [modulePat.mk p1 (isLiteral p1) (parseInt10_32 t1),
            modulePat.mk p2 (isLiteral p2) (parseInt10_32 t2)] := by
  have hs1 : splitOn '=' (p1 ++ '=' :: t1) = [p1, t1] := by
    rw [splitOn_append _ _ _ hp1e, splitOn_not_mem _ _ ht1e]
  have hs2 : splitOn '=' (p2 ++ '=' :: t2) = [p2, t2] := by
    rw [splitOn_append _ _ _ hp2e, splitOn_not_mem _ _ ht2e]
  have hne1 : ¬ (p1 ++ '=' :: t1 = []) := by simp
  have hne2 : ¬ (p2 ++ '=' :: t2 = []) := by simp
  unfold parseFilter
  rw [splitOn_append _ _ _ (comma_not_mem_seg hp1c ht1c),
    splitOn_not_mem _ _ (comma_not_mem_seg hp2c ht2c)]
  simp [parseSegs, hne1, hne2, hs1, hs2, h1, h2]

lemma vmoduleSet_ok_inv (innerSet : List Char → Option (List Char))
    (value : List Char) (st st' : GlobalState)
    (h : vmoduleSet innerSet value st = SetOutcome.ok st') :
    innerSet value = none ∧
      ∃ f, parseFilter value = some f ∧ st' = GlobalState.mk f [] := by
  unfold vmoduleSet at h
  cases hi : innerSet value with
  | some e => rw [hi] at h; exact absurd h (by simp)
  | none =>
    rw [hi] at h
    cases hp : parseFilter value with
    | none => rw [hp] at h; exact absurd h (by simp)
    | some f =>
      rw [hp] at h
      injection h with h'
      exact ⟨rfl, f, rfl, h'.symm⟩

lemma vmoduleSet_ok (innerSet : List Char → Option (List Char))
    (value : List Char) (st : GlobalState) (f : List modulePat)
    (hi : innerSet value = none) (hp : parseFilter value = some f) :
    vmoduleSet innerSet value st = SetOutcome.ok (GlobalState.mk f []) := by
  unfold vmoduleSet
  rw [hi, hp]

lemma vmoduleGet_empty_cache (fileOf : Nat → List Char) (pc : Nat)
    (filter : List modulePat) :
    vmoduleGet fileOf pc (GlobalState.mk filter []) =
      (levelFor filter (vmoduleFileName (fileOf pc)),
       GlobalState.mk filter
         [(pc, levelFor filter (vmoduleFileName (fileOf pc)))]) := by
  unfold vmoduleGet levelFor
  cases h : firstMatch filter (vmoduleFileName (fileOf pc)) <;>
    simp [h, List.lookup]

lemma stripGoSuffix_append (x : List Char) :
    stripGoSuffix (x ++ ['.', 'g', 'o']) = x := by
  unfold stripGoSuffix
  rw [if_pos (List.isSuffixOf_iff_suffix.2 (List.suffix_append x _))]
  have hl : (x ++ ['.', 'g', 'o']).length - 3 = x.length := by
    simp [List.length_append]
  rw [hl, List.take_left]

lemma stripGoSuffix_of_no_suffix (p : List Char)
    (h : List.isSuffixOf ['.', 'g', 'o'] p = false) : stripGoSuffix p = p := by
  unfold stripGoSuffix
  rw [if_neg]
  simp [h]

lemma afterLastSlash_no_slash (p : List Char) (h : '/' ∉ p) :
    afterLastSlash p = p := by
  induction p with
  | nil => rfl
  | cons c rest ih =>
    have hc : ¬ c = '/' := by
      intro e
      exact h (e ▸ List.mem_cons_self c rest)
    have hr : '/' ∉ rest := fun m => h (List.mem_cons_of_mem _ m)
    have hcon : rest.contains '/' = false := by
      simp [List.contains, List.elem_eq_mem, hr]
    simp [afterLastSlash, hc, hcon, hr]

lemma afterLastSlash_append (d b : List Char) (h : '/' ∉ b) :
    afterLastSlash (d ++ '/' :: b) = b := by
  induction d with
  | nil => simp [afterLastSlash, afterLastSlash_no_slash b h]
  | cons c rest ih =>
    have hcon : (rest ++ '/' :: b).contains '/' = true := by
      simp [List.contains, List.elem_eq_mem, List.mem_append]
    simp [afterLastSlash, hcon, ih]

lemma parseSegs_total (segs : List (List Char))
    (h : ∀ seg ∈ segs, seg ≠ [] → 2 ≤ (splitOn '=' seg).length) :
    ∃ f, parseSegs segs = some f := by
  induction segs with
  | nil => exact ⟨[], rfl⟩
  | cons pat rest ih =>
    obtain ⟨f, hf⟩ := ih fun s hs => h s (List.mem_cons_of_mem _ hs)
    by_cases hp : pat = []
    · exact ⟨f, by simp [parseSegs, hp, hf]⟩
    · have h1 : 1 < (splitOn '=' pat).length := h pat (List.mem_cons_self _ _) hp
      have hlt : (splitOn '=' pat)[1]? = some (splitOn '=' pat)[1] :=
        List.getElem?_eq_getElem h1
      by_cases hv : parseInt10_32 (splitOn '=' pat)[1] = 0
      · exact ⟨f, by simp [parseSegs, hp, hlt, hv, hf]⟩
      · exact ⟨modulePat.mk ((splitOn '=' pat).headD [])
            (isLiteral ((splitOn '=' pat).headD []))
            (parseInt10_32 (splitOn '=' pat)[1]) :: f,
          by simp [parseSegs, hp, hlt, hv, hf]⟩

lemma vmoduleGet_hit (fileOf : Nat → List Char) (pc : Nat) (st : GlobalState)
    (v : Int) (hc : st.vModuleCache.lookup pc = some v) :
    vmoduleGet fileOf pc st = (v, st) := by
  unfold vmoduleGet
  rw [hc]

lemma vmoduleGet_miss (fileOf : Nat → List Char) (pc : Nat) (st : GlobalState)
    (hc : st.vModuleCache.lookup pc = none) :
    vmoduleGet fileOf pc st =
      (levelFor st.vModuleFilter (vmoduleFileName (fileOf pc)),
       GlobalState.mk st.vModuleFilter
         ((pc, levelFor st.vModuleFilter (vmoduleFileName (fileOf pc)))
           :: st.vModuleCache)) := by
  unfold vmoduleGet levelFor
  rw [hc]
  cases hm : firstMatch st.vModuleFilter (vmoduleFileName (fileOf pc)) <;>
    simp [hm]

lemma cacheConsistent_get (fileOf : Nat → List Char) (st : GlobalState)
    (pc0 : Nat) (h : cacheConsistent fileOf st) :
    cacheConsistent fileOf (vmoduleGet fileOf pc0 st).2 := by
  intro pc lv hl
  cases hc : st.vModuleCache.lookup pc0 with
  | some v =>
    rw [vmoduleGet_hit fileOf pc0 st v hc] at hl ⊢
    exact h pc lv hl
  | none =>
    rw [vmoduleGet_miss fileOf pc0 st hc] at hl ⊢
    simp only [List.lookup_cons] at hl
    by_cases he : pc = pc0
    · subst he
      simp only [beq_self_eq_true] at hl
      injection hl with hl'
      exact hl'.symm
    · rw [show (pc == pc0) = false from beq_eq_false_iff_ne.2 he] at hl
      exact h pc lv hl

lemma reachable_cacheConsistent (fileOf : Nat → List Char) (st : GlobalState)
    (h : Reachable fileOf st) : cacheConsistent fileOf st := by
  induction h with
  | init =>
    intro pc lv hl
    simp [List.lookup] at hl
  | get pc0 _ ih => exact cacheConsistent_get _ _ pc0 ih
  | set _ hset _ =>
    obtain ⟨-, f, -, rfl⟩ := vmoduleSet_ok_inv _ _ _ _ hset
    intro pc lv hl
    simp [List.lookup] at hl

/-! ### Claims -/

/-- C1 counterexample: on the configuration string `"foo"` — a non-empty
segment with no `=` — `vmoduleValue.Set` does not complete normally:
`strings.Split("foo", "=")` has length 1 and the unconditional `patLev[1]`
index is out of bounds (a run-time panic), contrary to the claim that
unparseable segments are skipped best-effort with no failure. -/
theorem set_no_eq_segment_cex :
    parseFilter ("foo".data) = none ∧
    vmoduleSet (fun _ => none) ("foo".data) (GlobalState.mk [] [])
      = SetOutcome.oob :=
  ⟨rfl, rfl⟩

/-- C1 (amended): for every configuration string in which each non-empty
comma-segment contains at least one `=`, and which the wrapped inner flag
value accepts, parsing signals no error and `Set` completes normally,
installing the parsed filter with a cleared cache; the `patLev[1]` index
is in bounds exactly for such strings, while a non-empty segment without
`=` makes it go out of bounds (and is not skipped). -/
theorem set_wellformed_segments_no_error (value : List Char)
    (innerSet : List Char → Option (List Char)) (st : GlobalState)
    (hwf : ∀ seg ∈ splitOn ',' value, seg ≠ [] → 2 ≤ (splitOn '=' seg).length)
    (hinner : innerSet value = none) :
    parseFilter value ≠ none ∧
    vmoduleSet innerSet value st =
      SetOutcome.ok (GlobalState.mk ((parseFilter value).getD []) []) := by
  obtain ⟨f, hf⟩ := parseSegs_total (splitOn ',' value) hwf
  have hpf : parseFilter value = some f := hf
  refine ⟨by simp [hpf], ?_⟩
  rw [vmoduleSet_ok innerSet value st f hinner hpf, hpf]
  rfl

theorem set_wellformed_segments_no_error_witness :
    parseFilter ("a=1,,b=2".data) ≠ none ∧
    vmoduleSet (fun _ => none) ("a=1,,b=2".data) (GlobalState.mk [] []) =
      SetOutcome.ok (GlobalState.mk ((parseFilter ("a=1,,b=2".data)).getD []) []) :=
  set_wellformed_segments_no_error ("a=1,,b=2".data) (fun _ => none)
    (GlobalState.mk [] []) (by decide) rfl

/-- C3: first-match wins.  For every filter and candidate file name,
`vmoduleGet`'s loop returns the level of the first matching rule in
declaration order, whatever the levels of later matching rules; and after
`Set("a*=1,abc=5")` a call site resolving to file `abc` gets level 1, not
5. -/
theorem first_match_wins :
    (∀ (f1 f2 : List modulePat) (r : modulePat) (file : List Char),
      (∀ m ∈ f1, m.matchFile file = false) → r.matchFile file = true →
      firstMatch (f1 ++ r :: f2) file = some r.level) ∧
    (∀ st st' : GlobalState,
      vmoduleSet (fun _ => none) ("a*=1,abc=5".data) st = SetOutcome.ok st' →
      (vmoduleGet (fun _ => "/src/abc.go".data) 0 st').1 = 1) := by
  constructor
  · intro f1 f2 r file hnone hr
    induction f1 with
    | nil => simp [firstMatch, hr]
    | cons m f1' ih =>
      have hm := hnone m (List.mem_cons_self _ _)
      simp only [List.cons_append, firstMatch, hm, Bool.false_eq_true, if_false]
      exact ih fun m' hm' => hnone m' (List.mem_cons_of_mem _ hm')
  · intro st st' h
    have e : vmoduleSet (fun _ => none) ("a*=1,abc=5".data) st =
        SetOutcome.ok (GlobalState.mk
          [modulePat.mk ("a*".data) false 1,
           modulePat.mk ("abc".data) true 5] []) := rfl
    rw [e] at h
    injection h with h'
    rw [← h']
    rfl

theorem first_match_wins_witness :
    firstMatch ([] ++ modulePat.mk ("abc".data) true 5 :: []) ("abc".data) =
      some (modulePat.mk ("abc".data) true 5).level :=
  first_match_wins.1 [] [] (modulePat.mk ("abc".data) true 5) ("abc".data)
    (by intro m hm; cases hm) (by decide)

/-- C4 counterexample: the claim fails for numeric level text outside the
int32 range.  `strconv.ParseInt("99999999999999", 10, 32)` returns the
clamped value `2^31 - 1` together with `ErrRange`; the error is discarded,
the value is not 0, so the rule is kept with level 2147483647 — the
resulting filter differs from the one `"foo=0"` produces (the empty
filter). -/
theorem overflow_level_not_dropped_cex :
    parseFilter ("foo=99999999999999".data) =
      some [modulePat.mk ("foo".data) true 2147483647] ∧
    parseFilter ("foo=0".data) = some [] ∧
    parseFilter ("foo=99999999999999".data) ≠ parseFilter ("foo=0".data) :=
  ⟨rfl, rfl, by decide⟩

/-- C4 (amended): for every segment `p=t` whose level text `t` fails
integer parsing with a *syntax* error (e.g. `"foo=bar"`), the level parses
as zero, no error is raised, and the rule is dropped: the resulting filter
equals the one produced by `p=0` and the one produced by the empty
configuration.  Numeric text outside the int32 range is *not* equivalent
to level 0: it clamps to the range boundary and the rule is kept. -/
theorem malformed_level_drops_rule (p t : List Char)
    (hpe : '=' ∉ p) (hpc : ',' ∉ p) (htc : ',' ∉ t) (hte : '=' ∉ t)
    (hbad : levelSynErr t = true) :
    parseFilter (p ++ '=' :: t) = some [] ∧
    parseFilter (p ++ '=' :: ['0']) = some [] ∧
    parseFilter [] = some [] := by
  have h0 := parseInt_of_synErr t hbad
  refine ⟨?_, ?_, rfl⟩
  · rw [parseFilter_single p t hpe hpc htc hte]
    simp [h0]
  · rw [parseFilter_single p ['0'] hpe hpc (by decide) (by decide)]
    simp [show parseInt10_32 ['0'] = 0 from rfl]

theorem malformed_level_drops_rule_witness :
    parseFilter ("foo".data ++ '=' :: "bar".data) = some [] ∧
    parseFilter ("foo".data ++ '=' :: ['0']) = some [] ∧
    parseFilter [] = some [] :=
  malformed_level_drops_rule ("foo".data) ("bar".data)
    (by decide) (by decide) (by decide) (by decide) (by decide)

/-- C5: matcher semantics.  A rule classified literal (no metacharacters
`\`, `*`, `?`, `[`, `]` — that is, `isLiteral` holds) matches exactly the
candidates string-equal to its pattern; glob rules use shell-style
matching of the entire candidate: `"gopher*"` matches `"gopherflakes"`
but not `"thegopher"`, and `"?l*"` matches `"flake"` but not `"lake"`. -/
theorem matcher_semantics :
    (∀ (pat file : List Char) (lv : Int), isLiteral pat = true →
      (modulePat.mk pat (isLiteral pat) lv).matchFile file = (file == pat)) ∧
    (modulePat.mk ("gopher*".data) (isLiteral ("gopher*".data)) 3).matchFile
        ("gopherflakes".data) = true ∧
    (modulePat.mk ("gopher*".data) (isLiteral ("gopher*".data)) 3).matchFile
        ("thegopher".data) = false ∧
    (modulePat.mk ("?l*".data) (isLiteral ("?l*".data)) 3).matchFile
        ("flake".data) = true ∧
    (modulePat.mk ("?l*".data) (isLiteral ("?l*".data)) 3).matchFile
        ("lake".data) = false := by
  refine ⟨?_, rfl, rfl, rfl, rfl⟩
  intro pat file lv h
  simp [modulePat.matchFile, h]

theorem matcher_semantics_witness :
    isLiteral ("abc".data) = true ∧
    (modulePat.mk ("abc".data) (isLiteral ("abc".data)) 2).matchFile
        ("xbc".data) = ("xbc".data == "abc".data) :=
  ⟨by decide, matcher_semantics.1 ("abc".data) ("xbc".data) 2 (by decide)⟩

/-- C9: atomicity of `Set` on delegate failure.  `vmoduleValue.Set`
forwards the value to the wrapped inner flag value first; whenever that
inner `Set` returns an error, the shim returns the same error and the
state — filter and cache both — is left exactly as it was. -/
theorem set_inner_error_atomic (innerSet : List Char → Option (List Char))
    (value e : List Char) (st : GlobalState) (h : innerSet value = some e) :
    vmoduleSet innerSet value st = SetOutcome.err e st := by
  unfold vmoduleSet
  rw [h]

theorem set_inner_error_atomic_witness :
    vmoduleSet (fun _ => some ("bad".data)) ("x=1".data) (GlobalState.mk [] [])
      = SetOutcome.err ("bad".data) (GlobalState.mk [] []) :=
  set_inner_error_atomic (fun _ => some ("bad".data)) ("x=1".data)
    ("bad".data) (GlobalState.mk [] []) rfl

/-- C2: invariant between cache and filter.  In every reachable state,
each cache entry maps its call site to exactly the level the current
filter assigns to that site's resolved file name (0 when no rule
matches); and after `Get(site); Update(newSpec)`, a further `Get(site)`
returns the level determined by `newSpec` — never the cached level from
the old filter — because a successful `Set` installs the new filter with
a cleared cache in the same critical section. -/
theorem cache_level_invariant (fileOf : Nat → List Char) (st : GlobalState)
    (h : Reachable fileOf st) :
    cacheConsistent fileOf st ∧
    ∀ (pc : Nat) (innerSet : List Char → Option (List Char))
      (spec : List Char) (f : List modulePat) (st2 : GlobalState),
      parseFilter spec = some f →
      vmoduleSet innerSet spec (vmoduleGet fileOf pc st).2 = SetOutcome.ok st2 →
      (vmoduleGet fileOf pc st2).1 = levelFor f (vmoduleFileName (fileOf pc)) := by
  refine ⟨reachable_cacheConsistent fileOf st h, ?_⟩
  intro pc innerSet spec f st2 hspec hset
  obtain ⟨-, f', hf', rfl⟩ := vmoduleSet_ok_inv _ _ _ _ hset
  rw [hspec] at hf'
  injection hf' with hff
  subst hff
  simp [vmoduleGet_empty_cache]

theorem cache_level_invariant_witness :
    (vmoduleGet (fun _ => "abc".data) 0
        (GlobalState.mk [modulePat.mk ("abc".data) true 3] [])).1 =
      levelFor [modulePat.mk ("abc".data) true 3]
        (vmoduleFileName ("abc".data)) :=
  (cache_level_invariant (fun _ => "abc".data) (GlobalState.mk [] [])
      Reachable.init).2
    0 (fun _ => none) ("abc=3".data) [modulePat.mk ("abc".data) true 3]
    (GlobalState.mk [modulePat.mk ("abc".data) true 3] []) rfl rfl

/-- C6: threshold boundary.  For every spec `p1=t1,p2=t2` with positive
levels, after a successful `Set` a call site whose resolved file name
matches `p1` (the first rule, so no earlier rule can shadow it) satisfies
`V(L1) = true` and `V(L1 + 1) = false` through the vmodule path, with the
global `-v` check disabled. -/
theorem threshold_boundary (p1 t1 p2 t2 : List Char)
    (hp1e : '=' ∉ p1) (hp1c : ',' ∉ p1) (ht1c : ',' ∉ t1) (ht1e : '=' ∉ t1)
    (hp2e : '=' ∉ p2) (hp2c : ',' ∉ p2) (ht2c : ',' ∉ t2) (ht2e : '=' ∉ t2)
    (hL1 : 0 < parseInt10_32 t1) (hL2 : 0 < parseInt10_32 t2)
    (fileOf : Nat → List Char) (pc : Nat) (st st' : GlobalState)
    (innerSet : List Char → Option (List Char))
    (hmatch : (modulePat.mk p1 (isLiteral p1) (parseInt10_32 t1)).matchFile
        (vmoduleFileName (fileOf pc)) = true)
    (hset : vmoduleSet innerSet ((p1 ++ '=' :: t1) ++ ',' :: (p2 ++ '=' :: t2))
        st = SetOutcome.ok st') :
    (V false fileOf (parseInt10_32 t1) (some pc) st').1 = true ∧
    (V false fileOf (parseInt10_32 t1 + 1) (some pc) st').1 = false := by
  obtain ⟨-, f, hf, rfl⟩ := vmoduleSet_ok_inv _ _ _ _ hset
  rw [parseFilter_pair p1 t1 p2 t2 hp1e hp1c ht1c ht1e hp2e hp2c ht2c ht2e
    (ne_of_gt hL1) (ne_of_gt hL2)] at hf
  injection hf with hff
  subst hff
  have hlv : levelFor
      [modulePat.mk p1 (isLiteral p1) (parseInt10_32 t1),
       modulePat.mk p2 (isLiteral p2) (parseInt10_32 t2)]
      (vmoduleFileName (fileOf pc)) = parseInt10_32 t1 := by
    simp [levelFor, firstMatch, hmatch]
  constructor
  · simp [V, vmoduleGet_empty_cache, hlv]
  · simp [V, vmoduleGet_empty_cache, hlv]

theorem threshold_boundary_witness :
    (V false (fun _ => "/a/abc.go".data) (parseInt10_32 ("2".data)) (some 0)
        (GlobalState.mk
          [modulePat.mk ("abc".data) (isLiteral ("abc".data))
             (parseInt10_32 ("2".data)),
           modulePat.mk ("def".data) (isLiteral ("def".data))
             (parseInt10_32 ("1".data))] [])).1 = true ∧
    (V false (fun _ => "/a/abc.go".data) (parseInt10_32 ("2".data) + 1) (some 0)
        (GlobalState.mk
          [modulePat.mk ("abc".data) (isLiteral ("abc".data))
             (parseInt10_32 ("2".data)),
           modulePat.mk ("def".data) (isLiteral ("def".data))
             (parseInt10_32 ("1".data))] [])).1 = false :=
  threshold_boundary ("abc".data) ("2".data) ("def".data) ("1".data)
    (by decide) (by decide) (by decide) (by decide)
    (by decide) (by decide) (by decide) (by decide)
    (by decide) (by decide)
    (fun _ => "/a/abc.go".data) 0 (GlobalState.mk [] []) _ (fun _ => none)
    (by decide) rfl

/-- C7: call-site resolution.  The name matched against the filter is the
source path with a trailing `.go` removed (when present) and everything up
to and including the last `/` removed; a path with neither is left
unchanged. -/
theorem call_site_resolution :
    (∀ d b : List Char, '/' ∉ b →
      vmoduleFileName ((d ++ '/' :: b) ++ ['.', 'g', 'o']) = b) ∧
    (∀ b : List Char, '/' ∉ b →
      vmoduleFileName (b ++ ['.', 'g', 'o']) = b) ∧
    (∀ d b : List Char, '/' ∉ b →
      List.isSuffixOf ['.', 'g', 'o'] (d ++ '/' :: b) = false →
      vmoduleFileName (d ++ '/' :: b) = b) ∧
    (∀ p : List Char, '/' ∉ p →
      List.isSuffixOf ['.', 'g', 'o'] p = false →
      vmoduleFileName p = p) := by
  refine ⟨?_, ?_, ?_, ?_⟩
  · intro d b hb
    unfold vmoduleFileName
    rw [stripGoSuffix_append, afterLastSlash_append d b hb]
  · intro b hb
    unfold vmoduleFileName
    rw [stripGoSuffix_append, afterLastSlash_no_slash b hb]
  · intro d b hb hs
    unfold vmoduleFileName
    rw [stripGoSuffix_of_no_suffix _ hs, afterLastSlash_append d b hb]
  · intro p hp hs
    unfold vmoduleFileName
    rw [stripGoSuffix_of_no_suffix _ hs, afterLastSlash_no_slash p hp]

theorem call_site_resolution_witness :
    vmoduleFileName (("a".data ++ '/' :: "d".data) ++ ['.', 'g', 'o'])
      = "d".data :=
  call_site_resolution.1 ("a".data) ("d".data) (by decide)

/-- C8: idempotence of `Set`.  Two consecutive successful `Set` calls
with the same spec leave every call site resolving exactly as after the
first call: the second `Set` rebuilds an equal filter and an empty
cache. -/
theorem update_idempotent (innerSet : List Char → Option (List Char))
    (s : List Char) (st st1 st2 : GlobalState)
    (fileOf : Nat → List Char) (pc : Nat)
    (h1 : vmoduleSet innerSet s st = SetOutcome.ok st1)
    (h2 : vmoduleSet innerSet s st1 = SetOutcome.ok st2) :
    (vmoduleGet fileOf pc st2).1 = (vmoduleGet fileOf pc st1).1 := by
  obtain ⟨-, f, hf, rfl⟩ := vmoduleSet_ok_inv _ _ _ _ h1
  obtain ⟨-, f2, hf2, rfl⟩ := vmoduleSet_ok_inv _ _ _ _ h2
  rw [hf] at hf2
  injection hf2 with hff
  subst hff
  rfl

theorem update_idempotent_witness :
    (vmoduleGet (fun _ => "x".data) 0
        (GlobalState.mk [modulePat.mk "x".data true 1] [])).1 =
    (vmoduleGet (fun _ => "x".data) 0
        (GlobalState.mk [modulePat.mk "x".data true 1] [])).1 :=
  update_idempotent (fun _ => none) ("x=1".data) (GlobalState.mk [] []) _ _
    (fun _ => "x".data) 0 rfl rfl

/-- C10: negative levels are accepted, not rejected or zeroed.  A segment
whose level text parses to a negative integer (e.g. `"foo=-3"`) produces a
rule carrying that negative level — only exactly-zero levels are dropped —
a matching call site resolves to that negative level, and `V(n)` through
the vmodule path is false for every requested level `n` above it. -/
theorem negative_levels_kept (p t : List Char)
    (hpe : '=' ∉ p) (hpc : ',' ∉ p) (htc : ',' ∉ t) (hte : '=' ∉ t)
    (hneg : parseInt10_32 t < 0)
    (fileOf : Nat → List Char) (pc : Nat) (st st' : GlobalState)
    (innerSet : List Char → Option (List Char))
    (hmatch : (modulePat.mk p (isLiteral p) (parseInt10_32 t)).matchFile
        (vmoduleFileName (fileOf pc)) = true)
    (hset : vmoduleSet innerSet (p ++ '=' :: t) st = SetOutcome.ok st') :
    st'.vModuleFilter = [modulePat.mk p (isLiteral p) (parseInt10_32 t)] ∧
    (vmoduleGet fileOf pc st').1 = parseInt10_32 t ∧
    ∀ n : Int, parseInt10_32 t < n →
      (V false fileOf n (some pc) st').1 = false := by
  obtain ⟨-, f, hf, rfl⟩ := vmoduleSet_ok_inv _ _ _ _ hset
  rw [parseFilter_single p t hpe hpc htc hte, if_neg (ne_of_lt hneg)] at hf
  injection hf with hff
  subst hff
  have hlv : levelFor [modulePat.mk p (isLiteral p) (parseInt10_32 t)]
      (vmoduleFileName (fileOf pc)) = parseInt10_32 t := by
    simp [levelFor, firstMatch, hmatch]
  refine ⟨rfl, ?_, ?_⟩
  · simp [vmoduleGet_empty_cache, hlv]
  · intro n hn
    simp [V, vmoduleGet_empty_cache, hlv]
    omega

theorem negative_levels_kept_witness :
    (V false (fun _ => "b/foo.go".data) 0 (some 0)
        (GlobalState.mk
          [modulePat.mk ("foo".data) (isLiteral ("foo".data))
             (parseInt10_32 ("-3".data))] [])).1 = false :=
  (negative_levels_kept ("foo".data) ("-3".data)
    (by decide) (by decide) (by decide) (by decide) (by decide)
    (fun _ => "b/foo.go".data) 0 (GlobalState.mk [] []) _ (fun _ => none)
    (by decide) rfl).2.2 0 (by decide)

end Klog
